import Mathlib

/-!
Verification development for the batch transcription pipeline in `shot.py`.

The pipeline iterates over input media files; for each item it classifies
the path by extension, extracts audio from videos via an external tool,
transcribes the waveform with a recognition model, and aggregates per-item
results (successes or caught errors) into a single text report that is also
written to a temporary file.

The embedding models the external collaborators (the `whisper` recognition
model, the `ffmpeg` subprocess, and the temporary-file naming primitive) as
an oracle record `Env`, and the filesystem effects as an explicit state `St`
threaded through the functions, which otherwise follow `shot.py` line by line.
-/

/-- Filesystem / temp-allocation state threaded through the pipeline.
`fsFiles` is the set of paths currently existing on disk (as a list),
`tempCounter` numbers the fresh temporary files handed out so far, and
`written` records (path, content) pairs of text files written by the
pipeline (report persistence). -/
structure St where
  fsFiles : List String
  tempCounter : Nat
  written : List (String × String)
deriving Repr, DecidableEq

/-- Oracle for the external collaborators of `shot.py`:
`tempName n` is the name `tempfile.NamedTemporaryFile` returns for the n-th
allocation; `ffmpegExit src dst` is the exit code of the `ffmpeg` subprocess
(captured but never inspected by the code); `loadModel` models
`whisper.load_model` (which may raise); `transcribeCall model path lang`
models `model.transcribe(path, language=lang)["text"]` (which may raise). -/
structure Env where
  tempName : Nat → String
  ffmpegExit : String → String → Int
  loadModel : String → Except String Unit
  transcribeCall : String → String → Option String → Except String String

/-- Final path segment: embedding of `pathlib.Path(p).name`
(the text after the last `/`). -/
def pathName (p : String) : String :=
  String.mk (p.data.foldl (fun acc c => if c = '/' then [] else acc ++ [c]) [])

/-- Embedding of `pathlib.Path(p).suffix`: in the final segment `name`,
if the last `.` sits at an index i with 0 < i < name.length - 1, the suffix
is `name[i:]`, otherwise it is empty (CPython's rule). -/
def pathSuffix (p : String) : String :=
  let name := (pathName p).data
  let idx := (List.range name.length).foldl
    (fun acc i => if name.get? i = some '.' then some i else acc) none
  match idx with
  | some i => if 0 < i ∧ i + 1 < name.length then String.mk (name.drop i) else ""
  | none => ""

/-- ASCII lowercasing of a string, embedding `str.lower()` as used on
extensions (all extensions compared are ASCII). -/
def lowerStr (t : String) : String :=
  String.mk (t.data.map Char.toLower)

/-- ASCII uppercasing, embedding `str.upper()` on extensions. -/
def upperExt (t : String) : String :=
  String.mk (t.data.map Char.toUpper)

/-- The fixed video extension list of `shot.py` (lines 30 and 74). -/
def video_exts : List String :=
  [".mp4", ".avi", ".mov", ".mkv", ".flv", ".wmv"]

/-- The fixed audio extension list of `process_folder` (line 73). -/
def audio_exts : List String :=
  [".mp3", ".wav", ".ogg", ".aac", ".flac", ".m4a", ".wma"]

/-- `all_exts = audio_exts + video_exts` (line 75). -/
def all_exts : List String := audio_exts ++ video_exts

/-- Embedding of `extract_audio` (lines 11-23): allocate a fresh named
temporary `.wav` file (which creates it on disk), run `ffmpeg` with
`capture_output=True` and no status check (the returned completion record,
including the exit code, is discarded), and return the temp file's name. -/
def extract_audio (env : Env) (video_path : String) (s : St) : String × St :=
  let temp_audio := env.tempName s.tempCounter
  let s1 : St := ⟨temp_audio :: s.fsFiles, s.tempCounter + 1, s.written⟩
  let _completed := env.ffmpegExit video_path temp_audio
  (temp_audio, s1)

/-- The classification step of `transcribe_file` (lines 29-34): if the
lowercased path suffix is a video extension, extract audio first, otherwise
use the input path directly as the audio path. -/
def classifyAudioPath (env : Env) (file_path : String) (s : St) : String × St :=
  if lowerStr (pathSuffix file_path) ∈ video_exts then
    extract_audio env file_path s
  else
    (file_path, s)

/-- The language hint resolution of line 37:
`lang = None if language == "auto" else language`. -/
def langHint (language : String) : Option String :=
  if language = "auto" then none else some language

/-- Embedding of `transcribe_file` (lines 25-44): load the model (may
raise), classify/extract, transcribe with the resolved language hint (may
raise, in which case the function returns immediately and the cleanup at
lines 40-42 is skipped), and on success unlink the audio path when it
differs from the input path. Exceptions are modelled as `Except.error`. -/
def transcribe_file (env : Env) (file_path model_name language : String)
    (s : St) : Except String String × St :=
  match env.loadModel model_name with
  | Except.error e => (Except.error e, s)
  | Except.ok _ =>
    let cls := classifyAudioPath env file_path s
    let audio_path := cls.1
    let s1 := cls.2
    match env.transcribeCall model_name audio_path (langHint language) with
    | Except.error e => (Except.error e, s1)
    | Except.ok text =>
      let s2 := if audio_path ≠ file_path then
          (⟨s1.fsFiles.erase audio_path, s1.tempCounter, s1.written⟩ : St)
        else s1
      (Except.ok text, s2)

/-- Rendering of one item's entry in the report (lines 55 and 57):
`=== <display name> ===` then the text on success or `Error: <description>`
on failure, each entry ending with a newline. -/
def renderEntry (file : String) (r : Except String String) : String :=
  match r with
  | Except.ok text => "=== " ++ pathName file ++ " ===\n" ++ text ++ "\n"
  | Except.error e => "=== " ++ pathName file ++ " ===\nError: " ++ e ++ "\n"

/-- The per-item loop of `process_files` (lines 51-57): process each file
under a try/except, appending a success or failure entry, threading the
filesystem state. -/
def runItems (env : Env) (model_name language : String) :
    List String → St → List String × St
  | [], s => ([], s)
  | file :: rest, s =>
    let step := transcribe_file env file model_name language s
    let tail := runItems env model_name language rest step.2
    (renderEntry file step.1 :: tail.1, tail.2)

/-- Report persistence (lines 62-64 and 95-97): write `full_text` to a
fresh named temporary text file and return its path. -/
def persistReport (env : Env) (full_text : String) (s : St) : String × St :=
  let out := env.tempName s.tempCounter
  (out, ⟨out :: s.fsFiles, s.tempCounter + 1, (out, full_text) :: s.written⟩)

/-- Embedding of `process_files` (lines 46-66): empty input short-circuits
with a message and no download file; otherwise run the loop, join entries
with a newline, persist the full text, and return it with the temp path. -/
def process_files (env : Env) (files : List String)
    (model_name language : String) (s : St) :
    (String × Option String) × St :=
  if files.isEmpty then
    (("No files uploaded", none), s)
  else
    let run := runItems env model_name language files s
    let full_text := String.intercalate "\n" run.1
    let persisted := persistReport env full_text run.2
    ((full_text, some persisted.1), persisted.2)

/-- One glob pattern match, embedding `Path(folder).glob("*" + ext)` applied
to a directory entry `name`: `pathlib.Path.glob`'s `*` matches any run of
characters including the empty one and does not skip dotfiles, so the entry
matches exactly when its name ends with `ext`. -/
def globMatch (ext : String) (name : String) : Bool :=
  ext.data.isSuffixOf name.data

/-- The discovery loop of `process_folder` (lines 77-80): for each extension
in order, collect entries matching the lowercase pattern, then entries
matching the uppercase pattern. -/
def discoverExts : List String → List String → List String
  | [], _ => []
  | ext :: rest, contents =>
    contents.filter (globMatch ext)
      ++ contents.filter (globMatch (upperExt ext))
      ++ discoverExts rest contents

/-- Embedding of `process_folder` (lines 68-99): empty folder path or no
discovered files short-circuit with a message; otherwise the discovered
entries (joined onto the folder path) are processed exactly as in
`process_files`. `contents` is the directory's entry list. -/
def process_folder (env : Env) (folder_path : String) (contents : List String)
    (model_name language : String) (s : St) :
    (String × Option String) × St :=
  if folder_path = "" then
    (("No folder selected", none), s)
  else
    let files := (discoverExts all_exts contents).map
      (fun n => folder_path ++ "/" ++ n)
    if files.isEmpty then
      (("No audio/video files found in folder", none), s)
    else
      let run := runItems env model_name language files s
      let full_text := String.intercalate "\n" run.1
      let persisted := persistReport env full_text run.2
      ((full_text, some persisted.1), persisted.2)

/-! ## Concrete environments for witnesses and counterexamples -/

/-- A benign concrete environment: every collaborator succeeds. -/
def envW : Env :=
  ⟨fun _ => "/tmp/out.tmp", fun _ _ => 0,
   fun _ => Except.ok (), fun _ _ _ => Except.ok "hello world"⟩

/-- A concrete starting state with two input files on disk. -/
def stW : St := ⟨["uploads/a.wav", "uploads/b.mp4"], 0, []⟩

/-- A concrete environment whose transcription call raises (as when the
extracted waveform is unreadable). -/
def envFail : Env :=
  ⟨fun _ => "/tmp/w0.wav", fun _ _ => 1,
   fun _ => Except.ok (), fun _ _ _ => Except.error "Failed to load audio"⟩

/-- Starting state for the failing-transcription scenario. -/
def stFail : St := ⟨["uploads/clip.mp4"], 0, []⟩

/-! ## Helper lemmas -/

/-- The per-item loop yields exactly one entry per input file. -/
lemma runItems_length (env : Env) (m l : String) :
    ∀ (files : List String) (s : St),
      ((runItems env m l files s).1).length = files.length := by
  intro files
  induction files with
  | nil => intro s; simp [runItems]
  | cons f fs ih => intro s; simp [runItems, ih]

/-- The i-th entry of the loop's output is the rendering of the i-th input
file's result (under the filesystem state threaded up to it). -/
lemma runItems_get? (env : Env) (m l : String) :
    ∀ (files : List String) (s : St) (i : Nat) (fi : String),
      files.get? i = some fi →
      ∃ s', ((runItems env m l files s).1).get? i
        = some (renderEntry fi (transcribe_file env fi m l s').1) := by
  intro files
  induction files with
  | nil => intro s i fi h; simp at h
  | cons f fs ih =>
    intro s i fi h
    cases i with
    | zero =>
      simp only [List.get?] at h
      injection h with h
      subst h
      exact ⟨s, by simp [runItems]⟩
    | succ n =>
      simp only [List.get?] at h
      obtain ⟨s', hs⟩ := ih (transcribe_file env f m l s).2 n fi h
      exact ⟨s', by simpa [runItems] using hs⟩

/-- Membership characterization of the folder discovery loop. -/
lemma mem_discoverExts :
    ∀ (exts contents : List String) (name : String),
      name ∈ discoverExts exts contents ↔
        name ∈ contents ∧ ∃ ext, ext ∈ exts ∧
          (globMatch ext name = true ∨ globMatch (upperExt ext) name = true) := by
  intro exts
  induction exts with
  | nil => intro contents name; simp [discoverExts]
  | cons e rest ih =>
    intro contents name
    simp only [discoverExts, List.mem_append, List.mem_filter, ih]
    constructor
    · rintro ((⟨hc, hm⟩ | ⟨hc, hm⟩) | ⟨hc, ext, hext, hm⟩)
      · exact ⟨hc, e, List.mem_cons_self e rest, Or.inl hm⟩
      · exact ⟨hc, e, List.mem_cons_self e rest, Or.inr hm⟩
      · exact ⟨hc, ext, List.mem_cons_of_mem e hext, hm⟩
    · rintro ⟨hc, ext, hext, hm⟩
      rcases List.mem_cons.mp hext with rfl | hext
      · rcases hm with hm | hm
        · exact Or.inl (Or.inl ⟨hc, hm⟩)
        · exact Or.inl (Or.inr ⟨hc, hm⟩)
      · exact Or.inr ⟨hc, ext, hext, hm⟩

/-! ## Claim theorems -/

/-- C1: for every non-empty list of input files, `process_files` produces
exactly one result entry per input item, in input submission order, and an
exception raised while processing item i (modelled as `Except.error`) is
caught and recorded as a failure entry for item i without preventing items
i+1..n from being processed: the report is the join of the loop's entries,
the loop yields one entry per input, and the i-th entry renders the i-th
input's own result (success or error). -/
theorem c1_one_entry_per_item_in_order (env : Env) (files : List String)
    (m l : String) (s : St) (h : files ≠ []) :
    (process_files env files m l s).1.1
      = String.intercalate "\n" (runItems env m l files s).1
    ∧ ((runItems env m l files s).1).length = files.length
    ∧ ∀ i fi, files.get? i = some fi →
        ∃ s', ((runItems env m l files s).1).get? i
          = some (renderEntry fi (transcribe_file env fi m l s').1) := by
  refine ⟨?_, runItems_length env m l files s,
    fun i fi h' => runItems_get? env m l files s i fi h'⟩
  simp [process_files, h]

/-- Witness for C1 at a concrete two-item batch. -/
theorem c1_witness :
    ((runItems envW "base" "auto" ["uploads/a.wav", "uploads/b.mp4"] stW).1).length
      = 2 :=
  (c1_one_entry_per_item_in_order envW ["uploads/a.wav", "uploads/b.mp4"]
    "base" "auto" stW (by decide)).2.1


/-- C2: the claim states the temporary waveform does not exist after the
item's processing completes both on success and on failure. The code only
unlinks on the success path (lines 40-42 execute only after `transcribe`
returns), so when transcription raises for a video item the temp file is
leaked: at a concrete failing input, processing returns the error and the
extraction temp file is still on disk afterwards. -/
theorem c2_temp_leaked_when_transcription_fails :
    (transcribe_file envFail "uploads/clip.mp4" "base" "auto" stFail).1
      = Except.error "Failed to load audio"
    ∧ "/tmp/w0.wav"
        ∈ (transcribe_file envFail "uploads/clip.mp4" "base" "auto" stFail).2.fsFiles
    ∧ "/tmp/w0.wav" ∉ stFail.fsFiles := by
  refine ⟨rfl, by decide, by decide⟩

/-- C3 counterexample: a file with the mixed-case extension `.Mp4` is NOT
discovered by the folder scan — the discovery loop only globs the lowercase
and the all-uppercase pattern for each extension — refuting the claim that
discovery is case-insensitive. -/
theorem c3_mixed_case_not_discovered :
    discoverExts all_exts ["clip.Mp4"] = [] := by decide

/-- C3 amended: folder discovery scans the given directory non-recursively
and selects exactly the entries whose name ends with either the lowercase
form or the all-uppercase form of an extension in the fixed union of the
audio and video extension sets; fully lowercase `.mp4` and fully uppercase
`.MP4` are discovered (hidden files included), but a mixed-case `.Mp4` is
not. -/
theorem c3_discovery_lower_or_upper_only (contents : List String)
    (name : String) :
    (name ∈ discoverExts all_exts contents ↔
      name ∈ contents ∧ ∃ ext, ext ∈ all_exts ∧
        (globMatch ext name = true ∨ globMatch (upperExt ext) name = true))
    ∧ "clip.MP4" ∈ discoverExts all_exts ["clip.MP4"]
    ∧ "clip.mp4" ∈ discoverExts all_exts ["clip.mp4"]
    ∧ ".hidden.mp4" ∈ discoverExts all_exts [".hidden.mp4"] :=
  ⟨mem_discoverExts all_exts contents name, by decide, by decide, by decide⟩

/-- C4: an empty item list makes `process_files` return the EmptyInput
message with no download handle and an unchanged state (so no report is
persisted), and a folder scan in which no entry matches any lowercase or
uppercase extension pattern makes `process_folder` return its EmptyInput
message, also with no download handle and an unchanged state. -/
theorem c4_empty_input_no_report (env : Env) (m l : String) (s : St)
    (fp : String) (contents : List String)
    (hfp : fp ≠ "")
    (hnone : ∀ name, name ∈ contents → ∀ ext, ext ∈ all_exts →
      globMatch ext name = false ∧ globMatch (upperExt ext) name = false) :
    process_files env [] m l s = (("No files uploaded", none), s)
    ∧ process_folder env fp contents m l s
        = (("No audio/video files found in folder", none), s) := by
  constructor
  · rfl
  · have hdisc : discoverExts all_exts contents = [] := by
      rw [List.eq_nil_iff_forall_not_mem]
      intro name hname
      rw [mem_discoverExts] at hname
      obtain ⟨hc, ext, hext, hm⟩ := hname
      rcases hm with hm | hm
      · simp [(hnone name hc ext hext).1] at hm
      · simp [(hnone name hc ext hext).2] at hm
    simp [process_folder, hfp, hdisc]

/-- Witness for C4 at a folder containing only a non-media file. -/
theorem c4_witness :
    process_folder envW "/data" ["readme.txt"] "base" "auto" stW
      = (("No audio/video files found in folder", none), stW) :=
  (c4_empty_input_no_report envW "base" "auto" stW "/data" ["readme.txt"]
    (by decide) (by decide)).2

/-- C5: classification is by the lowercased path suffix against the fixed
video extension list: when it matches, extraction is invoked (and the
transcription call receives the extraction output path); when it does not,
the item's own path is passed to transcription as already-decoded audio.
Both `CLIP.MP4` and `clip.mp4` classify as video; `speech.wav` does not. -/
theorem c5_classification_case_insensitive :
    (∀ env p s, lowerStr (pathSuffix p) ∈ video_exts →
        classifyAudioPath env p s = extract_audio env p s)
    ∧ (∀ env p s, lowerStr (pathSuffix p) ∉ video_exts →
        classifyAudioPath env p s = (p, s))
    ∧ (∀ (env : Env) p m l s, env.loadModel m = Except.ok () →
        lowerStr (pathSuffix p) ∈ video_exts →
        (transcribe_file env p m l s).1
          = env.transcribeCall m (extract_audio env p s).1 (langHint l))
    ∧ lowerStr (pathSuffix "CLIP.MP4") ∈ video_exts
    ∧ lowerStr (pathSuffix "clip.mp4") ∈ video_exts
    ∧ lowerStr (pathSuffix "speech.wav") ∉ video_exts := by
  refine ⟨?_, ?_, ?_, by decide, by decide, by decide⟩
  · intro env p s hv
    simp [classifyAudioPath, hv]
  · intro env p s hv
    simp [classifyAudioPath, hv]
  · intro env p m l s hload hv
    simp only [transcribe_file, hload, classifyAudioPath, if_pos hv]
    cases hr : env.transcribeCall m (extract_audio env p s).1 (langHint l) <;>
      simp [hr]

/-- Witness for C5: classification of `CLIP.MP4` invokes extraction. -/
theorem c5_witness :
    classifyAudioPath envW "CLIP.MP4" stW = extract_audio envW "CLIP.MP4" stW :=
  c5_classification_case_insensitive.1 envW "CLIP.MP4" stW (by decide)

/-- C6: the report is the newline-join of per-item entries; each entry is a
header line `=== <display name> ===` followed by the body and a trailing
newline, where the body is the transcribed text on success and
`Error: <description>` on failure, in input order; the display name is the
path's final segment (e.g. `uploads/clip.mp4` displays as `clip.mp4`).
Since each entry ends with a newline and entries are joined with a newline,
entries are separated by blank lines. -/
theorem c6_report_rendering (env : Env) (files : List String)
    (m l : String) (s : St) (h : files ≠ []) :
    (process_files env files m l s).1.1
      = String.intercalate "\n" (runItems env m l files s).1
    ∧ (∀ i fi, files.get? i = some fi →
        ∃ s' body, ((runItems env m l files s).1).get? i
            = some ("=== " ++ pathName fi ++ " ===\n" ++ body ++ "\n")
          ∧ ((∃ t, (transcribe_file env fi m l s').1 = Except.ok t ∧ body = t)
             ∨ (∃ e, (transcribe_file env fi m l s').1 = Except.error e
                 ∧ body = "Error: " ++ e)))
    ∧ pathName "uploads/clip.mp4" = "clip.mp4" := by
  refine ⟨by simp [process_files, h], ?_, by decide⟩
  intro i fi hfi
  obtain ⟨s', hs⟩ := runItems_get? env m l files s i fi hfi
  cases hr : (transcribe_file env fi m l s').1 with
  | ok t =>
    refine ⟨s', t, ?_, Or.inl ⟨t, hr, rfl⟩⟩
    rw [hr] at hs
    exact hs
  | error e =>
    refine ⟨s', "Error: " ++ e, ?_, Or.inr ⟨e, hr, rfl⟩⟩
    rw [hr] at hs
    rw [hs]
    congr 1
    apply String.ext
    have hsplit : (" ===\nError: " : String).data
        = (" ===\n" : String).data ++ ("Error: " : String).data := by decide
    simp [renderEntry, String.data_append, hsplit]

/-- Witness for C6 at a concrete one-item batch. -/
theorem c6_witness : pathName "uploads/clip.mp4" = "clip.mp4" :=
  (c6_report_rendering envW ["uploads/a.wav"] "base" "auto" stW (by decide)).2.2

/-- C7: whenever a batch produces a report, the content recorded for the
persisted temporary report file is exactly the report text returned to the
caller, and the returned download handle names that file. -/
theorem c7_persisted_equals_returned (env : Env) (files : List String)
    (m l : String) (s : St) (h : files ≠ []) :
    ∃ p, (process_files env files m l s).1.2 = some p
      ∧ (p, (process_files env files m l s).1.1)
          ∈ (process_files env files m l s).2.written := by
  refine ⟨env.tempName (runItems env m l files s).2.tempCounter, ?_, ?_⟩ <;>
    simp [process_files, h, persistReport]

/-- Witness for C7 at a concrete one-item batch. -/
theorem c7_witness :
    ∃ p, (process_files envW ["uploads/a.wav"] "base" "auto" stW).1.2 = some p
      ∧ (p, (process_files envW ["uploads/a.wav"] "base" "auto" stW).1.1)
          ∈ (process_files envW ["uploads/a.wav"] "base" "auto" stW).2.written :=
  c7_persisted_equals_returned envW ["uploads/a.wav"] "base" "auto" stW (by decide)

/-- C8: the language hint handed to the recognition capability is `none`
exactly when the selected language is the sentinel `"auto"`, and is the
selected code itself otherwise; the transcription call receives the
classified audio path together with that resolved hint. -/
theorem c8_language_hint_resolution (env : Env) (p m l : String) (s : St)
    (h : env.loadModel m = Except.ok ()) :
    (transcribe_file env p m l s).1
      = env.transcribeCall m (classifyAudioPath env p s).1
          (if l = "auto" then none else some l)
    ∧ (langHint l = none ↔ l = "auto")
    ∧ (l ≠ "auto" → langHint l = some l) := by
  refine ⟨?_, ?_, ?_⟩
  · simp only [transcribe_file, h]
    cases hr : env.transcribeCall m (classifyAudioPath env p s).1 (langHint l) <;>
      simp only [hr] <;> exact hr.symm
  · by_cases hl : l = "auto" <;> simp [langHint, hl]
  · intro hl; simp [langHint, hl]

/-- Witness for C8: with the sentinel `"auto"`, the call receives `none`. -/
theorem c8_witness :
    langHint "auto" = none ↔ "auto" = "auto" :=
  (c8_language_hint_resolution envW "uploads/a.wav" "base" "auto" stW rfl).2.1

/-- C9: extraction never inspects the external tool's exit status. The
result of `extract_audio` is literally independent of the `ffmpeg` exit
function: replacing it by any other yields the same result, the returned
path is always the freshly allocated temp name (no error is ever signalled
at the extraction step), and the temp file is on disk afterwards — so a
failed extraction only surfaces later, when the transcription call errors
on the unusable waveform. -/
theorem c9_exit_status_never_inspected (env : Env) (p : String) (s : St)
    (e1 e2 : String → String → Int) :
    extract_audio { env with ffmpegExit := e1 } p s
      = extract_audio { env with ffmpegExit := e2 } p s
    ∧ (extract_audio env p s).1 = env.tempName s.tempCounter
    ∧ (extract_audio env p s).2.fsFiles
        = env.tempName s.tempCounter :: s.fsFiles :=
  ⟨rfl, rfl, rfl⟩

/-- C10: the pipeline never deletes a caller-supplied input file. For a
non-video item the filesystem is left exactly as it was (no file deleted at
all), and in every case any pre-existing file whose path is not one of the
temp names allocated by the acquisition primitive is still on disk after
the item's processing. -/
theorem c10_inputs_never_deleted (env : Env) (p m l : String) (s : St) :
    (lowerStr (pathSuffix p) ∉ video_exts →
      (transcribe_file env p m l s).2.fsFiles = s.fsFiles)
    ∧ (∀ q, q ∈ s.fsFiles → (∀ n, env.tempName n ≠ q) →
        q ∈ (transcribe_file env p m l s).2.fsFiles) := by
  cases hm : env.loadModel m with
  | error e =>
    refine ⟨fun _ => ?_, fun q hq _ => ?_⟩ <;> simp [transcribe_file, hm]
    exact hq
  | ok u =>
    by_cases hv : lowerStr (pathSuffix p) ∈ video_exts
    · refine ⟨fun hnv => absurd hv hnv, fun q hq _ => ?_⟩
      simp only [transcribe_file, hm, classifyAudioPath, if_pos hv, extract_audio]
      cases hr : env.transcribeCall m (env.tempName s.tempCounter) (langHint l) with
      | error e =>
        simp only [hr]
        exact List.mem_cons_of_mem _ hq
      | ok t =>
        simp only [hr]
        by_cases hne : env.tempName s.tempCounter ≠ p
        · simp only [if_pos hne, List.erase_cons_head]
          exact hq
        · simp only [if_neg hne]
          exact List.mem_cons_of_mem _ hq
    · have hfix : (transcribe_file env p m l s).2.fsFiles = s.fsFiles := by
        simp only [transcribe_file, hm, classifyAudioPath, if_neg hv]
        cases hr : env.transcribeCall m p (langHint l) with
        | error e => simp [hr]
        | ok t => simp [hr]
      exact ⟨fun _ => hfix, fun q hq _ => hfix ▸ hq⟩

/-- Witness for C10: a non-temp input file survives a full item run. -/
theorem c10_witness :
    "uploads/a.wav"
      ∈ (transcribe_file envW "uploads/a.wav" "base" "auto" stW).2.fsFiles :=
  (c10_inputs_never_deleted envW "uploads/a.wav" "base" "auto" stW).2
    "uploads/a.wav" (by decide)
    (fun _ => by show ("/tmp/out.tmp" : String) ≠ "uploads/a.wav"; decide)
